import Mathlib

/-!
# proxyScan: the two-phase scanning pipeline of `scan/scan.go`

A shallow embedding of `scan.go` (package `scan` of hdu-dn11/proxyScan) and the
properties of its address enumerator, its SOCKS5 validator and its orchestrator.

Conventions of the embedding

* Go `int` is the 64-bit two's complement integer of the amd64/arm64 ports: results of
  `+`, `*`, `<<` are reduced with `wrapInt`.
* A run of Go code that can stop abnormally returns `Except Abort _`: `Abort.panic` is a
  run-time panic, `Abort.fatal` is `log.Fatal`, `Abort.blocked` is a wait that never ends.
* `net/netip` values are modelled on their representation: a 128-bit number and a family
  tag (named IPv6 zones are left out, the scanner is IPv4 only).
* Progress printing of the enumerator (ticker and `fmt.Printf`) is an output side channel
  driven by wall-clock time and is not part of the embedding.
* Scheduling is a parameter of a run (`World`): the pool tasks of a phase run one after the
  other in an arbitrary completion order, and the goroutine that forwards `Alive` to the
  collector has done an arbitrary number of its writes when `c.Return()` is called.
-/

namespace ProxyScan

/-! ## Go integers -/

/-- The ways a run stops without a result. -/
inductive Abort where
  | panic
  | fatal
  | blocked
  deriving DecidableEq, Repr

/-- Reduction of a mathematical integer to the Go `int` (64 bit, two's complement). -/
def wrapInt (x : Int) : Int := (x + 2 ^ 63) % 2 ^ 64 - 2 ^ 63

/-- Conversion `int32(x)`: the low 32 bits read as a signed number. -/
def toInt32 (x : Int) : Int := (x + 2 ^ 31) % 2 ^ 32 - 2 ^ 31

/-- Conversion `uint16(x)`: the low 16 bits. -/
def toUint16 (x : Int) : Nat := (x % 2 ^ 16).toNat

/-- The expression `1 << s` for an `int` shift count `s`: a negative count panics, a count
of 64 or more gives 0. -/
def shl1 (s : Int) : Except Abort Int :=
  if s < 0 then .error .panic else .ok (wrapInt (2 ^ s.toNat))

/-! ## net/netip -/

/-- The family tag `z` of a `netip.Addr`: `z0` for the zero Addr, `z4` for IPv4, `z6noz` for
IPv6 without zone. -/
inductive Zone where
  | z0
  | z4
  | z6noz
  deriving DecidableEq, Repr

/-- Representation of `netip.Addr`: the `uint128` field `addr` and the tag `z`. -/
structure Addr where
  addr : Nat
  z : Zone
  deriving DecidableEq, Repr

/-- Representation of `netip.Prefix`. -/
structure Prefix where
  ip : Addr
  bitsPlusOne : Nat
  deriving DecidableEq, Repr

/-- The zero value `netip.Addr{}`. -/
def Addr.zero : Addr := { addr := 0, z := .z0 }

/-- High 64 bits of the `uint128`. -/
def Addr.hi (ip : Addr) : Nat := ip.addr / 2 ^ 64

/-- Low 64 bits of the `uint128`. -/
def Addr.lo (ip : Addr) : Nat := ip.addr % 2 ^ 64

/-- The constructor `netip.AddrFrom4` on the 32-bit value of the four octets. -/
def AddrFrom4 (v : Nat) : Addr := { addr := 0xffff00000000 + v % 2 ^ 32, z := .z4 }

def Addr.Is4 (ip : Addr) : Bool := ip.z == .z4

def Addr.isZero (ip : Addr) : Bool := ip.z == .z0

def Addr.BitLen (ip : Addr) : Int :=
  match ip.z with
  | .z0 => 0
  | .z4 => 32
  | .z6noz => 128

/-- The method `Addr.Next`: the following address, or the zero Addr when there is none. -/
def Addr.Next (ip : Addr) : Addr :=
  let ip1 : Addr := { ip with addr := (ip.addr + 1) % 2 ^ 128 }
  if ip1.Is4 then
    if ip1.lo % 2 ^ 32 == 0 then Addr.zero else ip1
  else
    if ip1.addr == 0 then Addr.zero else ip1

/-- The method `Addr.Compare` (zones left out). -/
def Addr.Compare (ip ip2 : Addr) : Int :=
  if ip.BitLen < ip2.BitLen then -1
  else if ip.BitLen > ip2.BitLen then 1
  else if ip.hi < ip2.hi then -1
  else if ip.hi > ip2.hi then 1
  else if ip.lo < ip2.lo then -1
  else if ip.lo > ip2.lo then 1
  else 0

def Addr.Less (ip ip2 : Addr) : Bool := ip.Compare ip2 == -1

/-- The helper `mask6 n`: a `uint128` with the top `n` bits set, built as in netip from two
64-bit halves (a Go shift by 64 or more gives 0). -/
def mask6 (n : Nat) : Nat :=
  let ones : Nat := 2 ^ 64 - 1
  let hi := ones - (if n < 64 then ones >>> n else 0)
  let lo := if 128 - n < 64 then (ones <<< (128 - n)) % 2 ^ 64 else 0
  hi * 2 ^ 64 + lo

/-- The constructor `netip.PrefixFrom`. -/
def PrefixFrom (ip : Addr) (bits : Int) : Prefix :=
  { ip := ip
    bitsPlusOne := if !ip.isZero && 0 ≤ bits && bits ≤ ip.BitLen then bits.toNat + 1 else 0 }

/-- The method `Addr.Prefix` with its error result dropped, as `Prefix.Masked` uses it. -/
def Addr.Prefix (ip : Addr) (b : Int) : Prefix :=
  if b < 0 then { ip := Addr.zero, bitsPlusOne := 0 }
  else
    match ip.z with
    | .z0 => { ip := Addr.zero, bitsPlusOne := 0 }
    | .z4 =>
      if b > 32 then { ip := Addr.zero, bitsPlusOne := 0 }
      else PrefixFrom { ip with addr := ip.addr &&& mask6 (b.toNat + 96) } b
    | .z6noz =>
      if b > 128 then { ip := Addr.zero, bitsPlusOne := 0 }
      else PrefixFrom { ip with addr := ip.addr &&& mask6 b.toNat } b

def Prefix.Addr (p : Prefix) : ProxyScan.Addr := p.ip

def Prefix.Bits (p : Prefix) : Int := (p.bitsPlusOne : Int) - 1

def Prefix.IsValid (p : Prefix) : Bool := decide (0 < p.bitsPlusOne)

def Prefix.Masked (p : Prefix) : Prefix := p.ip.Prefix p.Bits

/-- The method `Prefix.Contains` (an Addr of this model carries no zone). -/
def Prefix.Contains (p : Prefix) (ip : ProxyScan.Addr) : Bool :=
  if !p.IsValid then false
  else if p.ip.BitLen == 0 || ip.BitLen == 0 || p.ip.BitLen != ip.BitLen then false
  else if ip.Is4 then
    ((ip.lo ^^^ p.ip.lo) >>> ((32 - p.Bits) % 64).toNat) % 2 ^ 32 == 0
  else
    (ip.addr ^^^ p.ip.addr) &&& mask6 p.Bits.toNat == 0

/-- Representation invariant of the Addr values netip builds: 128 bits, and an IPv4 Addr is
stored as the IPv4-mapped number `0xffff_0000_0000 + v`. -/
def Addr.WF (ip : Addr) : Prop :=
  ip.addr < 2 ^ 128 ∧ (ip.z = .z4 → ip.addr / 2 ^ 32 = 0xffff)

instance (ip : Addr) : Decidable ip.WF := by
  unfold Addr.WF; infer_instance

/-- A valid IPv4 prefix: an IPv4 address and a length of 0 to 32 bits. -/
def Prefix.ValidV4 (p : Prefix) : Prop :=
  p.ip.z = .z4 ∧ p.ip.WF ∧ 1 ≤ p.bitsPlusOne ∧ p.bitsPlusOne ≤ 33

instance (p : Prefix) : Decidable p.ValidV4 := by
  unfold Prefix.ValidV4; infer_instance

/-! ## scan.go: the enumerator -/

/-- The inner loop `for i := 0; i < count; i++ { yield(ip); ip = ip.Next(); ... }` of
`ipGenerator`, with `n` iterations left; the callback acts on a state of type `σ`. -/
def yieldLoop {σ : Type} (yield : Addr → σ → σ) : Nat → Addr → σ → σ
  | 0, _, s => s
  | n + 1, ip, s => yieldLoop yield n ip.Next (yield ip s)

/-- The first loop of `ipGenerator`: `all += 1 << (32 - prefix.Bits())`. -/
def countAll (prefixs : List Prefix) : Except Abort Int :=
  prefixs.foldlM (fun all p => do
    let c ← shl1 (32 - p.Bits)
    pure (wrapInt (all + c))) 0

/-- The function `ipGenerator(prefixs)(yield)`, started with the callback state `s`. -/
def ipGenerator {σ : Type} (prefixs : List Prefix) (yield : Addr → σ → σ) (s : σ) :
    Except Abort σ := do
  let _all ← countAll prefixs
  prefixs.foldlM (fun st p => do
    let count ← shl1 (32 - p.Bits)
    let ip := p.Masked.Addr
    pure (yieldLoop yield count.toNat ip st)) s

/-- The sequence of addresses handed to the callback: `ipGenerator` run with a callback
that appends its argument to a log. -/
def yieldSeq (prefixs : List Prefix) : Except Abort (List Addr) :=
  ipGenerator prefixs (fun a log => log ++ [a]) []

/-- The prefix 10.0.0.1/30: host bits set, its network is 10.0.0.0/30. -/
def prefix10 : Prefix := { ip := AddrFrom4 0x0a000001, bitsPlusOne := 31 }


/-! ## scan.go: the Scanner and the SOCKS5 validator -/

/-- The part of `http.Response` the scanner reads. -/
structure Response where
  StatusCode : Int
  deriving DecidableEq, Repr

/-- The struct `Scanner`. `TestCallback` receives `none` for a nil response; the field is
taken to hold a function (a nil func value is not modelled). `TestTimeout` is a
`time.Duration`, a number of nanoseconds. -/
structure Scanner where
  UseIPRaw : Bool
  UsePcap : Bool
  TestUrl : String
  TestCallback : Option Response → Bool
  TestTimeout : Int
  PortScanRate : Int

/-- The constructor `Default()`; `StatusCode/100` is Go's truncating division. -/
def Default : Scanner :=
  { UseIPRaw := false
    UsePcap := false
    TestUrl := "http://www.gstatic.com/generate_204"
    TestCallback := fun resp =>
      match resp with
      | none => false
      | some r => r.StatusCode.tdiv 100 == 2
    TestTimeout := 15 * 1000000000
    PortScanRate := 3000 }

/-- The dialer `proxy.SOCKS5` hands back: the proxy it points at and whether its dynamic
type has `DialContext`. -/
structure Dialer where
  proxyAddr : String
  isContextDialer : Bool
  deriving DecidableEq, Repr

/-- The outside world of one validation: the result of `proxy.SOCKS5("tcp", addrPort, nil,
proxy.Direct)` (`none` for a non-nil error) and the response of `http.Client.Get` through
that dialer with the given timeout (`none` for a nil response). -/
structure Net where
  SOCKS5 : String → Option Dialer
  Get : Dialer → Int → String → Option Response

/-- The method `Scanner.scanSocks5`. -/
def Scanner.scanSocks5 (s : Scanner) (net : Net) (addrPort : String) : Bool :=
  match net.SOCKS5 addrPort with
  | none => false
  | some dialer =>
    if !dialer.isContextDialer then false
    else
      let resp := net.Get dialer s.TestTimeout s.TestUrl
      s.TestCallback resp

/-! ## Collaborators of ScanAll -/

/-- Representation of `netip.AddrPort`. -/
structure AddrPort where
  ip : Addr
  port : Nat
  deriving DecidableEq, Repr

def AddrPortFrom (ip : Addr) (port : Nat) : AddrPort := { ip := ip, port := port }

/-- The counter of a `sync.WaitGroup`. The Go runtime keeps it in the high 32 bits of a
64-bit state word and reads it back as an `int32`. -/
structure WaitGroup where
  counter : Int
  deriving DecidableEq, Repr

/-- The method `WaitGroup.Add`: `state := wg.state.Add(uint64(delta) << 32)`,
`v := int32(state >> 32)`, and a panic "sync: negative WaitGroup counter" when `v < 0`. -/
def WaitGroup.Add (wg : WaitGroup) (delta : Int) : Except Abort WaitGroup :=
  let v := toInt32 (wg.counter + delta)
  if v < 0 then .error .panic else .ok { counter := v }

/-- The method `WaitGroup.Done`, which is `Add(-1)`. -/
def WaitGroup.Done (wg : WaitGroup) : Except Abort WaitGroup := wg.Add (-1)

/-- The method `WaitGroup.Wait` once every task has run: it returns when the counter is 0 and
otherwise never does. -/
def WaitGroup.Wait (wg : WaitGroup) : Except Abort Unit :=
  if wg.counter == 0 then .ok () else .error .blocked

/-- Modelled from the spec: the worker pool of package `pool`, which is not among the sources.
Every task handed to `Submit` runs exactly once and there is no ordering guarantee among
tasks: the tasks finish in an order that is a permutation `order` of the order of
submission. -/
def Pool.completion {τ : Type} (order : (n : Nat) → Equiv.Perm (Fin n)) (tasks : List τ) :
    List τ :=
  List.ofFn (fun i => tasks.get (order tasks.length i))

/-- Modelled from the spec: the collector of package `utils`, which is not among the sources.
It keeps every item written to `c.C` and `Return()` hands back everything written before the
call: the state of a collector is the list of the items written so far. -/
abbrev Collector := List AddrPort

/-- State shared by the tasks of one phase: the completion barrier and the collector. -/
structure Gather where
  wg : WaitGroup
  c : Collector
  deriving DecidableEq, Repr

/-- One pool task of either phase: `defer wg.Done()`, and `c.C <- addrPort` when the probe
`hit` succeeded. -/
def runTask (hit : Bool) (addrPort : AddrPort) (g : Gather) : Except Abort Gather := do
  let c := if hit then g.c ++ [addrPort] else g.c
  let wg ← g.wg.Done
  pure { wg := wg, c := c }

/-- The outside world of one run of `ScanAll`. -/
structure World where
  /-- `tcpport.NewPcapScanner` returns without error. -/
  pcapOk : Bool
  /-- `tcpport.NewIPRawScanner` returns without error. -/
  ipRawOk : Bool
  /-- The endpoints the detector emits on its `Alive` channel before `Wait()` returns, in
  order, for the sequence of endpoints passed to `Send`. -/
  aliveStream : List AddrPort → List AddrPort
  /-- Of `n` endpoints emitted on `Alive`, the number the goroutine `for addrPort := range
  portScanner.Alive { ...; c.C <- addrPort }` has written to the collector when `ScanAll`
  calls `c.Return()`: nothing in `ScanAll` orders that goroutine against `Wait()` and
  `c.Return()`. -/
  forwarded : Nat → Nat
  /-- Result of `tcpport.CommonScan` in the task submitted as number `i`. -/
  CommonScan : Nat → String → Bool
  /-- The method `netip.Addr.String`. -/
  addrString : Addr → String
  /-- The function `fmt.Sprint` on an `int`. -/
  sprint : Int → String
  /-- The method `netip.AddrPort.String`. -/
  addrPortString : AddrPort → String
  /-- Completion order of the pool tasks of phase 1. -/
  order1 : (n : Nat) → Equiv.Perm (Fin n)
  /-- Completion order of the pool tasks of phase 2. -/
  order2 : (n : Nat) → Equiv.Perm (Fin n)
  /-- The network as the validation submitted as number `i` finds it. -/
  net : Nat → Net

/-! ## scan.go: ScanAll -/

/-- The three ways of phase 1. -/
inductive Strategy where
  | pcap
  | ipRaw
  | pooled
  deriving DecidableEq, Repr

/-- The branch `if s.UsePcap { ... } else if s.UseIPRaw { ... } else { ... }` of `ScanAll`. -/
def Scanner.strategy (s : Scanner) : Strategy :=
  if s.UsePcap then .pcap
  else if s.UseIPRaw then .ipRaw
  else .pooled

/-- Result of phase 1: the `(addr, pt)` pairs a probe was dispatched for, in order of
dispatch, and `aliveTCPAddrs`. -/
structure Phase1 where
  dispatched : List (Addr × Int)
  alive : List AddrPort
  deriving DecidableEq, Repr

/-- The callback handed to `ipGenerator` in all three branches: for every `pt` of `port` one
probe for `(addr, pt)` is dispatched (`Send` or `Submit`). -/
def dispatch (port : List Int) (addr : Addr) (log : List (Addr × Int)) : List (Addr × Int) :=
  log ++ port.map (fun pt => (addr, pt))

/-- Phase 1 with a detector of package `tcpport` (packet capture or raw socket), built with
success `ok`: `log.Fatal` when construction failed, else `Send(netip.AddrPortFrom(addr,
uint16(pt)))` for every dispatched pair, then `Wait()` and `c.Return()`, which hands back
what the goroutine reading `Alive` has written to the collector by then. -/
def phase1Detector (w : World) (ok : Bool) (prefixs : List Prefix) (port : List Int) :
    Except Abort Phase1 :=
  if !ok then .error .fatal
  else do
    let dispatched ← ipGenerator prefixs (dispatch port) []
    let sent := dispatched.map (fun d => AddrPortFrom d.1 (toUint16 d.2))
    let emitted := w.aliveStream sent
    pure { dispatched := dispatched, alive := emitted.take (w.forwarded emitted.length) }

/-- Phase 1 with the worker pool: `wg.Add(addrCount * len(port))`, one task per dispatched
pair that runs `CommonScan(addr.String() + ":" + fmt.Sprint(pt))` and on success writes
`netip.AddrPortFrom(addr, uint16(pt))` to the collector, then `wg.Wait()` and `c.Return()`. -/
def phase1Pooled (w : World) (addrCount : Int) (prefixs : List Prefix) (port : List Int) :
    Except Abort Phase1 := do
  let wg ← WaitGroup.Add { counter := 0 } (wrapInt (addrCount * port.length))
  let dispatched ← ipGenerator prefixs (dispatch port) []
  let done := Pool.completion w.order1 dispatched.enum
  let g ← done.foldlM (fun g t =>
    runTask (w.CommonScan t.1 (w.addrString t.2.1 ++ ":" ++ w.sprint t.2.2))
      (AddrPortFrom t.2.1 (toUint16 t.2.2)) g) { wg := wg, c := [] }
  g.wg.Wait
  pure { dispatched := dispatched, alive := g.c }

/-- Phase 1 of `ScanAll`: `addrCount`, then the branch on the two flags. -/
def Scanner.phase1 (s : Scanner) (w : World) (prefixs : List Prefix) (port : List Int) :
    Except Abort Phase1 := do
  let addrCount ← countAll prefixs
  match s.strategy with
  | .pcap => phase1Detector w w.pcapOk prefixs port
  | .ipRaw => phase1Detector w w.ipRawOk prefixs port
  | .pooled => phase1Pooled w addrCount prefixs port

/-- Result of phase 2: the arguments of the calls of `scanSocks5`, in order of completion,
and the value of `c.Return()`. -/
structure Phase2 where
  probed : List String
  validated : List AddrPort
  deriving DecidableEq, Repr

/-- Phase 2 of `ScanAll`: `wg.Add(len(aliveTCPAddrs))`, one task per member that runs
`s.scanSocks5(addrPort.String())` and on success writes `addrPort` to the second collector,
then `wg.Wait()` and `c.Return()`. -/
def Scanner.phase2 (s : Scanner) (w : World) (aliveTCPAddrs : List AddrPort) :
    Except Abort Phase2 := do
  let wg ← WaitGroup.Add { counter := 0 } (wrapInt aliveTCPAddrs.length)
  let done := Pool.completion w.order2 aliveTCPAddrs.enum
  let r ← done.foldlM (fun (r : Gather × List String) t => do
    let target := w.addrPortString t.2
    let g ← runTask (s.scanSocks5 (w.net t.1) target) t.2 r.1
    pure (g, r.2 ++ [target])) ({ wg := wg, c := [] }, [])
  r.1.wg.Wait
  pure { probed := r.2, validated := r.1.c }

/-- The method `Scanner.ScanAll`. -/
def Scanner.ScanAll (s : Scanner) (w : World) (prefixs : List Prefix) (port : List Int) :
    Except Abort (List AddrPort) := do
  let p1 ← s.phase1 w prefixs port
  let p2 ← s.phase2 w p1.alive
  pure p2.validated

/-! ## Sample inputs -/

/-- The prefix 10.0.0.0/31, inside `prefix10`. -/
def prefix10half : Prefix := { ip := AddrFrom4 0x0a000000, bitsPlusOne := 32 }

/-- The endpoint 10.0.0.2:1080. -/
def endpoint2 : AddrPort := AddrPortFrom (AddrFrom4 0x0a000002) 1080

/-- A network in which the SOCKS5 dialer is built and every request fails without a
response. -/
def deadNet : Net :=
  { SOCKS5 := fun a => some { proxyAddr := a, isContextDialer := true }
    Get := fun _ _ _ => none }

/-- A network in which 10.0.0.2:1080 proxies the request and answers 204. -/
def liveNet : Net :=
  { SOCKS5 := fun a => some { proxyAddr := a, isContextDialer := true }
    Get := fun d _ _ => if d.proxyAddr == "10.0.0.2:1080" then some { StatusCode := 204 } else none }

/-- A world without listeners other than the proxy 10.0.0.2:1080, with both detectors
available, every emitted endpoint written to the collector in time, and tasks finishing in
the order of submission. -/
def quietWorld : World :=
  { pcapOk := true
    ipRawOk := true
    aliveStream := fun sent => sent.filter (fun a => a == endpoint2)
    forwarded := fun n => n
    CommonScan := fun _ target => target == "10.0.0.2:1080"
    addrString := fun a =>
      let v := a.addr % 2 ^ 32
      toString (v / 2 ^ 24) ++ "." ++ toString (v / 2 ^ 16 % 256) ++ "." ++
        toString (v / 2 ^ 8 % 256) ++ "." ++ toString (v % 256)
    sprint := fun n => toString n
    addrPortString := fun a =>
      let v := a.ip.addr % 2 ^ 32
      toString (v / 2 ^ 24) ++ "." ++ toString (v / 2 ^ 16 % 256) ++ "." ++
        toString (v / 2 ^ 8 % 256) ++ "." ++ toString (v % 256) ++ ":" ++ toString a.port
    order1 := fun _ => Equiv.refl _
    order2 := fun _ => Equiv.refl _
    net := fun _ => liveNet }

/-- The `Default()` scanner with a predicate that accepts everything, an absent response
included. -/
def permissive : Scanner := { Default with TestCallback := fun _ => true }

/-- The `Default()` scanner switched to packet capture. -/
def pcapScanner : Scanner := { Default with UsePcap := true }

/-- The `Default()` scanner switched to raw sockets. -/
def rawScanner : Scanner := { Default with UseIPRaw := true }

/-- The `Default()` scanner with both flags set. -/
def bothFlags : Scanner := { Default with UsePcap := true, UseIPRaw := true }

/-- A network in which `proxy.SOCKS5` fails. -/
def noDialerNet : Net :=
  { SOCKS5 := fun _ => none
    Get := fun _ _ _ => some { StatusCode := 200 } }

/-- A network in which the dialer built by `proxy.SOCKS5` has no `DialContext`. -/
def plainDialerNet : Net :=
  { SOCKS5 := fun a => some { proxyAddr := a, isContextDialer := false }
    Get := fun _ _ _ => some { StatusCode := 200 } }

/-- The prefix 0.0.0.0/1. -/
def halfSpace : Prefix := { ip := AddrFrom4 0, bitsPlusOne := 2 }

/-- A world in which every endpoint passed to `Send` is reported alive and collected. -/
def everyoneAlive : World := { quietWorld with aliveStream := fun sent => sent }

/-- The world `quietWorld` with another schedule: `ScanAll` reaches `c.Return()` before the
goroutine reading `Alive` has written anything to the collector. -/
def lateForwarder : World := { quietWorld with forwarded := fun _ => 0 }

/-! ## Reference enumeration -/

/-- The IPv4 addresses stored as `a`, `a + 1`, ..., `a + n - 1`. -/
def block (a n : Nat) : List Addr := (List.range n).map (fun m => { addr := a + m, z := .z4 })

/-- The block of a prefix: `2 ^ (32 - bits)` addresses from the address with the host bits
cleared. -/
def prefixBlock (p : Prefix) : List Addr :=
  block (p.ip.addr - p.ip.addr % 2 ^ (33 - p.bitsPlusOne)) (2 ^ (33 - p.bitsPlusOne))

/-! ## Arithmetic of masks -/

theorem and_two_pow_sub_two_pow (a n k : Nat) (ha : a < 2 ^ n) (hk : k ≤ n) :
    a &&& (2 ^ n - 2 ^ k) = a - a % 2 ^ k := by
  have h1 : 2 ^ n - 2 ^ k = 2 ^ k * (2 ^ (n - k) - 1) := by
    rw [Nat.mul_sub, ← pow_add, Nat.add_sub_cancel' hk, mul_one]
  have h2 : a - a % 2 ^ k = 2 ^ k * (a / 2 ^ k) := by
    have := Nat.div_add_mod a (2 ^ k)
    omega
  rw [h1, h2]
  apply Nat.eq_of_testBit_eq
  intro j
  rw [Nat.testBit_and, Nat.testBit_mul_pow_two, Nat.testBit_mul_pow_two,
    Nat.testBit_two_pow_sub_one, ← Nat.shiftRight_eq_div_pow, Nat.testBit_shiftRight]
  by_cases hj : k ≤ j
  · have e : k + (j - k) = j := by omega
    rw [e]
    by_cases hn : j < n
    · have : j - k < n - k := by omega
      simp [hj, this]
    · have hlt : a < 2 ^ j := lt_of_lt_of_le ha (Nat.pow_le_pow_right (by norm_num) (by omega))
      simp [Nat.testBit_lt_two_pow hlt]
  · simp [hj]

theorem mask6_v4 (b : Nat) (hb : b ≤ 32) : mask6 (b + 96) = 2 ^ 128 - 2 ^ (32 - b) := by
  interval_cases b <;> rfl

theorem wrapInt_two_pow (k : Nat) (hk : k ≤ 32) : wrapInt (2 ^ k) = 2 ^ k := by
  interval_cases k <;> rfl

/-- Number of host bits of a prefix, `32 - Bits()`. -/
theorem shl1_validV4 (p : Prefix) (hp : p.ValidV4) :
    shl1 (32 - p.Bits) = .ok ((2 : Int) ^ (33 - p.bitsPlusOne)) := by
  obtain ⟨_, _, h1, h2⟩ := hp
  have e : (32 - p.Bits).toNat = 33 - p.bitsPlusOne := by
    unfold Prefix.Bits; omega
  have hn : ¬ (32 - p.Bits < 0) := by unfold Prefix.Bits; omega
  unfold shl1
  rw [if_neg hn, e, wrapInt_two_pow _ (by omega)]

theorem masked_validV4 (p : Prefix) (hp : p.ValidV4) :
    p.Masked.Addr = { addr := p.ip.addr - p.ip.addr % 2 ^ (33 - p.bitsPlusOne), z := .z4 } := by
  obtain ⟨hz, ⟨hlt, _⟩, h1, h2⟩ := hp
  have hb0 : ¬ (p.Bits < 0) := by unfold Prefix.Bits; omega
  have hb32 : ¬ (p.Bits > 32) := by unfold Prefix.Bits; omega
  have hbn : p.Bits.toNat = p.bitsPlusOne - 1 := by unfold Prefix.Bits; omega
  have hm := mask6_v4 (p.bitsPlusOne - 1) (by omega)
  have hk : 32 - (p.bitsPlusOne - 1) = 33 - p.bitsPlusOne := by omega
  rw [hk] at hm
  unfold Prefix.Masked Addr.Prefix
  rw [if_neg hb0]
  simp only [hz, if_neg hb32, PrefixFrom, Prefix.Addr, hbn, hm]
  rw [and_two_pow_sub_two_pow _ 128 _ hlt (by omega)]

/-! ## The enumerator -/

theorem ok_bind {ε α β : Type} (x : α) (f : α → Except ε β) :
    (Except.ok x >>= f) = f x := rfl

theorem error_bind {ε α β : Type} (e : ε) (f : α → Except ε β) :
    (Except.error e >>= f) = Except.error e := rfl

/-- The loop calls the callback on the successive `Next` iterates, in order. -/
theorem yieldLoop_eq {σ : Type} (yield : Addr → σ → σ) (n : Nat) (ip : Addr) (s : σ) :
    yieldLoop yield n ip s = (List.iterate Addr.Next ip n).foldl (fun st a => yield a st) s := by
  induction n generalizing ip s with
  | zero => rfl
  | succ n ih => simp [yieldLoop, List.iterate, ih]

theorem net_bounds (a k : Nat) (hk : k ≤ 32) (ha : a / 2 ^ 32 = 0xffff) :
    (a - a % 2 ^ k) / 2 ^ 32 = 0xffff ∧ (a - a % 2 ^ k) % 2 ^ 32 + 2 ^ k ≤ 2 ^ 32 := by
  interval_cases k <;> omega

theorem next_v4 (a : Nat) (h1 : a / 2 ^ 32 = 0xffff) (h2 : (a + 1) / 2 ^ 32 = 0xffff) :
    Addr.Next { addr := a, z := .z4 } = { addr := a + 1, z := .z4 } := by
  have e1 : (a + 1) % 2 ^ 128 = a + 1 := by omega
  have e2 : ¬ ((a + 1) % 2 ^ 64 % 2 ^ 32 = 0) := by omega
  simp only [Addr.Next, Addr.Is4, Addr.lo, e1, beq_self_eq_true, if_true, beq_iff_eq, e2,
    if_false]

theorem iterate_next (n a : Nat) (h1 : a / 2 ^ 32 = 0xffff) (h2 : a % 2 ^ 32 + n ≤ 2 ^ 32) :
    List.iterate Addr.Next { addr := a, z := .z4 } n = block a n := by
  induction n generalizing a with
  | zero => rfl
  | succ n ih =>
    rw [List.iterate, block, List.range_succ_eq_map, List.map_cons, List.map_map]
    congr 1
    cases n with
    | zero => rfl
    | succ n =>
      rw [next_v4 a h1 (by omega), ih (a + 1) (by omega) (by omega)]
      unfold block
      apply List.map_congr_left
      intro m _
      simp [Nat.add_assoc, Nat.add_comm 1 m]

theorem toNat_two_pow (k : Nat) : ((2 : Int) ^ k).toNat = 2 ^ k := by
  have h : ((2 : Int) ^ k) = ((2 ^ k : Nat) : Int) := by push_cast; rfl
  rw [h, Int.toNat_natCast]

theorem countAll_ok (ps : List Prefix) (h : ∀ p ∈ ps, p.ValidV4) (init : Int) :
    ∃ n, ps.foldlM (fun all p => do
      let c ← shl1 (32 - p.Bits)
      pure (wrapInt (all + c))) init = (Except.ok n : Except Abort Int) := by
  induction ps generalizing init with
  | nil => exact ⟨init, rfl⟩
  | cons p ps ih =>
    rw [List.foldlM_cons, shl1_validV4 p (h p (List.mem_cons_self _ _))]
    exact ih (fun q hq => h q (List.mem_cons_of_mem _ hq)) _

theorem prefixBlock_eq (p : Prefix) (hp : p.ValidV4) :
    List.iterate Addr.Next p.Masked.Addr (2 ^ (33 - p.bitsPlusOne)) = prefixBlock p := by
  have hb := net_bounds p.ip.addr (33 - p.bitsPlusOne) (by have := hp.2.2.1; omega)
    (hp.2.1.2 hp.1)
  rw [masked_validV4 p hp, iterate_next _ _ hb.1 hb.2]
  rfl

theorem foldl_ok (ps : List Prefix) (h : ∀ p ∈ ps, p.ValidV4) {σ : Type}
    (yield : Addr → σ → σ) (s : σ) :
    ps.foldlM (fun st p => do
      let count ← shl1 (32 - p.Bits)
      let ip := p.Masked.Addr
      pure (yieldLoop yield count.toNat ip st)) s
      = (Except.ok ((ps.flatMap prefixBlock).foldl (fun st a => yield a st) s) :
          Except Abort σ) := by
  induction ps generalizing s with
  | nil => rfl
  | cons p ps ih =>
    have hp := h p (List.mem_cons_self _ _)
    rw [List.foldlM_cons, shl1_validV4 p hp, ok_bind]
    erw [ok_bind]
    rw [ih (fun q hq => h q (List.mem_cons_of_mem _ hq)), toNat_two_pow, yieldLoop_eq,
      prefixBlock_eq p hp, List.flatMap_cons, List.foldl_append]

/-- On valid IPv4 prefixes the enumerator returns, and its calls of the callback are the
blocks of the prefixes in input order. -/
theorem ipGenerator_eq (ps : List Prefix) (h : ∀ p ∈ ps, p.ValidV4) {σ : Type}
    (yield : Addr → σ → σ) (s : σ) :
    ipGenerator ps yield s
      = .ok ((ps.flatMap prefixBlock).foldl (fun st a => yield a st) s) := by
  obtain ⟨n, hn⟩ := countAll_ok ps h 0
  unfold ipGenerator countAll
  rw [hn, ok_bind, foldl_ok ps h]

theorem foldl_log (l acc : List Addr) :
    l.foldl (fun (log : List Addr) a => log ++ [a]) acc = acc ++ l := by
  induction l generalizing acc with
  | nil => simp
  | cons a l ih => simp [ih]

theorem yieldSeq_eq (ps : List Prefix) (h : ∀ p ∈ ps, p.ValidV4) :
    yieldSeq ps = .ok (ps.flatMap prefixBlock) := by
  unfold yieldSeq
  rw [ipGenerator_eq ps h, foldl_log, List.nil_append]

theorem block_length (a n : Nat) : (block a n).length = n := by
  simp [block]

theorem block_getElem (a n i : Nat) (h : i < (block a n).length) :
    (block a n)[i] = { addr := a + i, z := .z4 } := by
  simp [block]

theorem less_v4 (a : Nat) (h1 : a / 2 ^ 32 = 0xffff) :
    Addr.Less { addr := a, z := .z4 } { addr := a + 1, z := .z4 } = true := by
  have e1 : ¬ (a / 2 ^ 64 < (a + 1) / 2 ^ 64) := by omega
  have e2 : ¬ (a / 2 ^ 64 > (a + 1) / 2 ^ 64) := by omega
  have e3 : a % 2 ^ 64 < (a + 1) % 2 ^ 64 := by omega
  simp only [Addr.Less, Addr.Compare, Addr.BitLen, Addr.hi, Addr.lo, lt_self_iff_false,
    gt_iff_lt, if_false, e1, e2, e3, if_true, beq_self_eq_true]

theorem prefixBlock_step (p : Prefix) (hp : p.ValidV4) (i : Nat)
    (h : i + 1 < (prefixBlock p).length) :
    (prefixBlock p)[i + 1] = (prefixBlock p)[i].Next ∧
      (prefixBlock p)[i].Less (prefixBlock p)[i + 1] = true := by
  have hb := net_bounds p.ip.addr (33 - p.bitsPlusOne) (by have := hp.2.2.1; omega)
    (hp.2.1.2 hp.1)
  have hl : i + 1 < 2 ^ (33 - p.bitsPlusOne) := by
    simpa [prefixBlock, block_length] using h
  simp only [prefixBlock, block_getElem]
  have h1 : (p.ip.addr - p.ip.addr % 2 ^ (33 - p.bitsPlusOne) + i) / 2 ^ 32 = 0xffff := by
    omega
  have h2 : (p.ip.addr - p.ip.addr % 2 ^ (33 - p.bitsPlusOne) + i + 1) / 2 ^ 32 = 0xffff := by
    omega
  rw [next_v4 _ h1 h2, ← Nat.add_assoc]
  exact ⟨rfl, less_v4 _ h1⟩

/-- C1: for a valid IPv4 prefix of length `b`, `ipGenerator` on the one-prefix list returns,
whatever the callback, after calling it on the members of one sequence `l` in order; `l` has
exactly `2 ^ (32 - b)` members, starts at `prefix.Masked().Addr()`, and each member is the
`Next()` of the one before and compares greater than it. -/
theorem ipGenerator_single (p : Prefix) (hp : p.ValidV4) :
    ∃ l : List Addr,
      (∀ (σ : Type) (yield : Addr → σ → σ) (s : σ),
        ipGenerator [p] yield s = .ok (l.foldl (fun st a => yield a st) s)) ∧
      yieldSeq [p] = .ok l ∧
      l.length = 2 ^ (32 - p.Bits).toNat ∧
      l.head? = some p.Masked.Addr ∧
      ∀ (i : Nat) (h : i + 1 < l.length), l[i + 1] = l[i].Next ∧ l[i].Less l[i + 1] = true := by
  have hv : ∀ q ∈ [p], q.ValidV4 := by
    intro q hq
    rw [List.mem_singleton] at hq
    exact hq ▸ hp
  have hk : (32 - p.Bits).toNat = 33 - p.bitsPlusOne := by
    have := hp.2.2.1
    unfold Prefix.Bits; omega
  refine ⟨prefixBlock p, ?_, ?_, ?_, ?_, ?_⟩
  · intro σ yield s
    rw [ipGenerator_eq [p] hv]
    simp
  · rw [yieldSeq_eq [p] hv]
    simp
  · rw [hk]
    simp [prefixBlock, block_length]
  · rw [masked_validV4 p hp]
    have hpos : 0 < 2 ^ (33 - p.bitsPlusOne) := Nat.pos_pow_of_pos _ (by norm_num)
    obtain ⟨m, hm⟩ := Nat.exists_eq_succ_of_ne_zero (Nat.pos_iff_ne_zero.mp hpos)
    simp [prefixBlock, block, hm, List.range_succ_eq_map]
  · intro i h
    exact prefixBlock_step p hp i h

theorem ipGenerator_single_witness :
    prefix10.ValidV4 ∧ ∃ l : List Addr,
      (∀ (σ : Type) (yield : Addr → σ → σ) (s : σ),
        ipGenerator [prefix10] yield s = .ok (l.foldl (fun st a => yield a st) s)) ∧
      yieldSeq [prefix10] = .ok l ∧
      l.length = 2 ^ (32 - prefix10.Bits).toNat ∧
      l.head? = some prefix10.Masked.Addr ∧
      ∀ (i : Nat) (h : i + 1 < l.length), l[i + 1] = l[i].Next ∧ l[i].Less l[i + 1] = true :=
  ⟨by decide, ipGenerator_single prefix10 (by decide)⟩

/-! ## Coverage of a prefix -/

theorem xor_shift_zero_iff (x y k : Nat) (h : x / 2 ^ 32 = y / 2 ^ 32) :
    ((x ^^^ y) >>> k) % 2 ^ 32 = 0 ↔ x / 2 ^ k = y / 2 ^ k := by
  constructor
  · intro H
    apply Nat.eq_of_testBit_eq
    intro j
    rw [← Nat.shiftRight_eq_div_pow, ← Nat.shiftRight_eq_div_pow, Nat.testBit_shiftRight,
      Nat.testBit_shiftRight]
    by_cases hj : j < 32
    · have hb := congrArg (fun n => Nat.testBit n j) H
      simp only [Nat.testBit_mod_two_pow, Nat.testBit_shiftRight, Nat.testBit_xor,
        Nat.zero_testBit, hj, decide_True, Bool.true_and] at hb
      revert hb
      cases x.testBit (k + j) <;> cases y.testBit (k + j) <;> simp
    · have hb := congrArg (fun n => Nat.testBit n (k + j - 32)) h
      simp only [← Nat.shiftRight_eq_div_pow, Nat.testBit_shiftRight] at hb
      have e : 32 + (k + j - 32) = k + j := by omega
      rw [e] at hb
      exact hb
  · intro H
    apply Nat.eq_of_testBit_eq
    intro j
    have hb := congrArg (fun n => Nat.testBit n j) H
    simp only [← Nat.shiftRight_eq_div_pow, Nat.testBit_shiftRight] at hb
    rw [Nat.testBit_mod_two_pow, Nat.testBit_shiftRight, Nat.testBit_xor, hb]
    simp

theorem div_eq_iff_block (x y k : Nat) (hk : k ≤ 32) :
    x / 2 ^ k = y / 2 ^ k ↔ y - y % 2 ^ k ≤ x ∧ x < y - y % 2 ^ k + 2 ^ k := by
  interval_cases k <;> omega

theorem mem_block (a n : Nat) (ip : Addr) :
    ip ∈ block a n ↔ ip.z = .z4 ∧ a ≤ ip.addr ∧ ip.addr < a + n := by
  unfold block
  rw [List.mem_map]
  constructor
  · rintro ⟨m, hm, rfl⟩
    rw [List.mem_range] at hm
    exact ⟨rfl, by simp, by simpa using hm⟩
  · rintro ⟨hz, h1, h2⟩
    refine ⟨ip.addr - a, List.mem_range.mpr (by omega), ?_⟩
    cases ip with
    | mk addr z =>
      simp only at hz h1 h2 ⊢
      subst hz
      congr 1
      omega

/-- Membership in the block of a valid IPv4 prefix is what `Prefix.Contains` decides. -/
theorem mem_prefixBlock_iff (p : Prefix) (hp : p.ValidV4) (ip : Addr) (hw : ip.WF) :
    ip ∈ prefixBlock p ↔ p.Contains ip = true := by
  obtain ⟨hz, ⟨hlt, h4⟩, h1, h2⟩ := hp
  have h4 := h4 hz
  have hk : ((32 - p.Bits) % 64).toNat = 33 - p.bitsPlusOne := by
    unfold Prefix.Bits; omega
  have hvalid : p.IsValid = true := by simp [Prefix.IsValid]; omega
  rw [prefixBlock, mem_block]
  unfold Prefix.Contains
  rw [hvalid, hk]
  cases hzi : ip.z with
  | z0 => simp [Addr.BitLen, hzi, hz]
  | z6noz => simp [Addr.BitLen, hzi, hz]
  | z4 =>
    have hi4 := hw.2 hzi
    have e1 : ip.addr % 2 ^ 64 = ip.addr := by omega
    have e2 : p.ip.addr % 2 ^ 64 = p.ip.addr := by omega
    simp only [Addr.BitLen, hzi, hz, Addr.Is4, Addr.lo, e1, e2, Bool.not_true,
      Bool.false_eq_true, if_false, beq_self_eq_true, if_true, bne_self_eq_false,
      Bool.or_false, true_and, beq_iff_eq]
    have : ((32 : Int) == 0) = false := by decide
    simp only [this, Bool.false_eq_true, if_false]
    simp only [Bool.or_self, Bool.false_eq_true, if_false, beq_iff_eq]
    rw [xor_shift_zero_iff _ _ _ (hi4.trans h4.symm), div_eq_iff_block _ _ _ (by omega)]

theorem wf_of_mem_prefixBlock (p : Prefix) (hp : p.ValidV4) (ip : Addr)
    (h : ip ∈ prefixBlock p) : ip.WF := by
  have hb := net_bounds p.ip.addr (33 - p.bitsPlusOne) (by have := hp.2.2.1; omega)
    (hp.2.1.2 hp.1)
  rw [prefixBlock, mem_block] at h
  obtain ⟨_, h1, h2⟩ := h
  constructor
  · omega
  · intro _
    omega

/-- C2: for a valid IPv4 prefix `p` the addresses `ipGenerator([p])` yields are exactly the
addresses `p` contains: every yielded address is inside `p`, every (well-formed) address
inside `p` is yielded, the network address and the last (broadcast) address are yielded,
and the zero Addr is never yielded. -/
theorem ipGenerator_covers (p : Prefix) (hp : p.ValidV4) :
    ∃ l : List Addr,
      yieldSeq [p] = .ok l ∧
      (∀ ip ∈ l, p.Contains ip = true) ∧
      (∀ ip : Addr, ip.WF → p.Contains ip = true → ip ∈ l) ∧
      p.Masked.Addr ∈ l ∧
      ({ addr := p.Masked.Addr.addr + (2 ^ (32 - p.Bits).toNat - 1), z := .z4 } : Addr) ∈ l ∧
      Addr.zero ∉ l := by
  have hv : ∀ q ∈ [p], q.ValidV4 := by
    intro q hq
    rw [List.mem_singleton] at hq
    exact hq ▸ hp
  have hk : (32 - p.Bits).toNat = 33 - p.bitsPlusOne := by
    have := hp.2.2.1
    unfold Prefix.Bits; omega
  have hpos : 0 < 2 ^ (33 - p.bitsPlusOne) := Nat.pos_pow_of_pos _ (by norm_num)
  refine ⟨prefixBlock p, ?_, ?_, ?_, ?_, ?_, ?_⟩
  · rw [yieldSeq_eq [p] hv]
    simp
  · intro ip hip
    exact (mem_prefixBlock_iff p hp ip (wf_of_mem_prefixBlock p hp ip hip)).mp hip
  · intro ip hw hc
    exact (mem_prefixBlock_iff p hp ip hw).mpr hc
  · rw [masked_validV4 p hp, prefixBlock, mem_block]
    refine ⟨rfl, ?_, ?_⟩ <;> dsimp only <;> omega
  · rw [masked_validV4 p hp, hk, prefixBlock, mem_block]
    refine ⟨rfl, ?_, ?_⟩ <;> dsimp only <;> omega
  · intro h
    rw [prefixBlock, mem_block] at h
    exact absurd h.1 (by simp [Addr.zero])

theorem ipGenerator_covers_witness :
    prefix10.ValidV4 ∧ ∃ l : List Addr,
      yieldSeq [prefix10] = .ok l ∧
      (∀ ip ∈ l, prefix10.Contains ip = true) ∧
      (∀ ip : Addr, ip.WF → prefix10.Contains ip = true → ip ∈ l) ∧
      prefix10.Masked.Addr ∈ l ∧
      ({ addr := prefix10.Masked.Addr.addr + (2 ^ (32 - prefix10.Bits).toNat - 1),
         z := .z4 } : Addr) ∈ l ∧
      Addr.zero ∉ l :=
  ⟨by decide, ipGenerator_covers prefix10 (by decide)⟩

/-! ## Several prefixes -/

theorem block_nodup (a n : Nat) : (block a n).Nodup := by
  unfold block
  apply List.Nodup.map _ (List.nodup_range n)
  intro m1 m2 h
  simp only [Addr.mk.injEq, and_true] at h
  omega

theorem count_prefixBlock (p : Prefix) (hp : p.ValidV4) (ip : Addr) (hw : ip.WF) :
    (prefixBlock p).count ip = if p.Contains ip = true then 1 else 0 := by
  have hn : (prefixBlock p).Nodup := block_nodup _ _
  rw [List.count_eq_of_nodup hn]
  by_cases hc : p.Contains ip = true
  · rw [if_pos hc, if_pos ((mem_prefixBlock_iff p hp ip hw).mpr hc)]
  · rw [if_neg hc, if_neg (fun hm => hc ((mem_prefixBlock_iff p hp ip hw).mp hm))]

theorem count_flatMap_prefixBlock (ps : List Prefix) (h : ∀ p ∈ ps, p.ValidV4) (ip : Addr)
    (hw : ip.WF) :
    (ps.flatMap prefixBlock).count ip = (ps.filter (fun p => p.Contains ip)).length := by
  induction ps with
  | nil => rfl
  | cons p ps ih =>
    rw [List.flatMap_cons, List.count_append, ih (fun q hq => h q (List.mem_cons_of_mem _ hq)),
      count_prefixBlock p (h p (List.mem_cons_self _ _)) ip hw, List.filter_cons]
    by_cases hc : p.Contains ip = true
    · simp [hc, Nat.add_comm]
    · simp [hc]

theorem length_flatMap_prefixBlock (ps : List Prefix) (h : ∀ p ∈ ps, p.ValidV4) :
    (ps.flatMap prefixBlock).length = (ps.map (fun p => 2 ^ (32 - p.Bits).toNat)).sum := by
  induction ps with
  | nil => rfl
  | cons p ps ih =>
    have hk : (32 - p.Bits).toNat = 33 - p.bitsPlusOne := by
      have := (h p (List.mem_cons_self _ _)).2.2.1
      unfold Prefix.Bits; omega
    rw [List.flatMap_cons, List.length_append, ih (fun q hq => h q (List.mem_cons_of_mem _ hq)),
      List.map_cons, List.sum_cons, hk]
    simp [prefixBlock, block_length]

/-- C3: on a list of valid IPv4 prefixes the enumerator yields the concatenation, in input
order, of what it yields for each prefix alone (for every callback); the number of yields
is the sum of `2 ^ (32 - bits)` over the prefixes, and an address is yielded once for each
prefix of the list that contains it (no deduplication). -/
theorem ipGenerator_concat (ps : List Prefix) (h : ∀ p ∈ ps, p.ValidV4) :
    ∃ parts : List (List Addr),
      List.Forall₂ (fun p l => yieldSeq [p] = .ok l) ps parts ∧
      yieldSeq ps = .ok parts.flatten ∧
      (∀ (σ : Type) (yield : Addr → σ → σ) (s : σ),
        ipGenerator ps yield s = .ok (parts.flatten.foldl (fun st a => yield a st) s)) ∧
      parts.flatten.length = (ps.map (fun p => 2 ^ (32 - p.Bits).toNat)).sum ∧
      ∀ ip : Addr, ip.WF →
        parts.flatten.count ip = (ps.filter (fun p => p.Contains ip)).length := by
  have hf : (ps.map prefixBlock).flatten = ps.flatMap prefixBlock := by
    rw [List.flatMap_def]
  refine ⟨ps.map prefixBlock, ?_, ?_, ?_, ?_, ?_⟩
  · clear hf
    induction ps with
    | nil => exact List.Forall₂.nil
    | cons p ps ih =>
      refine List.Forall₂.cons ?_ (ih (fun q hq => h q (List.mem_cons_of_mem _ hq)))
      have hv : ∀ q ∈ [p], q.ValidV4 := by
        intro q hq
        rw [List.mem_singleton] at hq
        exact hq ▸ h p (List.mem_cons_self _ _)
      rw [yieldSeq_eq [p] hv]
      simp
  · rw [hf, yieldSeq_eq ps h]
  · intro σ yield s
    rw [hf, ipGenerator_eq ps h]
  · rw [hf, length_flatMap_prefixBlock ps h]
  · intro ip hw
    rw [hf, count_flatMap_prefixBlock ps h ip hw]

theorem ipGenerator_concat_witness :
    (∀ p ∈ [prefix10, prefix10half], p.ValidV4) ∧
    ∃ parts : List (List Addr),
      List.Forall₂ (fun p l => yieldSeq [p] = .ok l) [prefix10, prefix10half] parts ∧
      yieldSeq [prefix10, prefix10half] = .ok parts.flatten ∧
      (∀ (σ : Type) (yield : Addr → σ → σ) (s : σ),
        ipGenerator [prefix10, prefix10half] yield s
          = .ok (parts.flatten.foldl (fun st a => yield a st) s)) ∧
      parts.flatten.length
        = ([prefix10, prefix10half].map (fun p => 2 ^ (32 - p.Bits).toNat)).sum ∧
      ∀ ip : Addr, ip.WF →
        parts.flatten.count ip
          = ([prefix10, prefix10half].filter (fun p => p.Contains ip)).length :=
  ⟨by decide, ipGenerator_concat [prefix10, prefix10half] (by decide)⟩

/-! ## The SOCKS5 validator -/

theorem tdiv_hundred_eq_two (x : Int) : x.tdiv 100 = 2 ↔ 200 ≤ x ∧ x ≤ 299 := by
  cases x with
  | ofNat n =>
    have h : (Int.ofNat n).tdiv 100 = ((n / 100 : Nat) : Int) := rfl
    rw [h]
    constructor
    · intro H
      have : n / 100 = 2 := by exact_mod_cast H
      constructor
      · show (200 : Int) ≤ (n : Int)
        omega
      · show (n : Int) ≤ 299
        omega
    · rintro ⟨h1, h2⟩
      have h1 : (200 : Int) ≤ (n : Int) := h1
      have h2 : (n : Int) ≤ 299 := h2
      have : n / 100 = 2 := by omega
      rw [this]
      rfl
  | negSucc n =>
    have h : (Int.negSucc n).tdiv 100 = -((((n + 1) / 100 : Nat)) : Int) := rfl
    rw [h]
    constructor
    · intro H
      omega
    · rintro ⟨h1, _⟩
      have := Int.negSucc_lt_zero n
      omega

theorem default_callback_iff (resp : Option Response) :
    Default.TestCallback resp = true ↔
      ∃ r, resp = some r ∧ 200 ≤ r.StatusCode ∧ r.StatusCode ≤ 299 := by
  cases resp with
  | none => simp [Default]
  | some r =>
    simp only [Default, beq_iff_eq, tdiv_hundred_eq_two, Option.some.injEq]
    constructor
    · intro h
      exact ⟨r, rfl, h⟩
    · rintro ⟨r1, rfl, h⟩
      exact h

/-- C4: the default predicate is true exactly on a present response with a status code in
[200,299], false on an absent response and on every other code (negative ones, 199, 300);
and `scanSocks5` of the `Default()` scanner is true exactly when the dialer is built,
is a ContextDialer, and the GET returns a response with a status code in [200,299]. -/
theorem default_success_iff (net : Net) (addrPort : String) :
    (∀ resp : Option Response, Default.TestCallback resp = true ↔
      ∃ r, resp = some r ∧ 200 ≤ r.StatusCode ∧ r.StatusCode ≤ 299) ∧
    Default.TestCallback none = false ∧
    Default.TestCallback (some { StatusCode := 199 }) = false ∧
    Default.TestCallback (some { StatusCode := 300 }) = false ∧
    Default.TestCallback (some { StatusCode := -200 }) = false ∧
    (Default.scanSocks5 net addrPort = true ↔
      ∃ d r, net.SOCKS5 addrPort = some d ∧ d.isContextDialer = true ∧
        net.Get d Default.TestTimeout Default.TestUrl = some r ∧
        200 ≤ r.StatusCode ∧ r.StatusCode ≤ 299) := by
  refine ⟨default_callback_iff, by decide, by decide, by decide, by decide, ?_⟩
  unfold Scanner.scanSocks5
  cases hs : net.SOCKS5 addrPort with
  | none => simp
  | some d =>
    cases hc : d.isContextDialer with
    | false => simp [hc]
    | true =>
      simp only [hc, Bool.not_true, Bool.false_eq_true, if_false, default_callback_iff,
        Option.some.injEq]
      constructor
      · rintro ⟨r, hr, h⟩
        exact ⟨d, r, rfl, hc, hr, h⟩
      · rintro ⟨d1, r, hd, _, hr, h⟩
        subst hd
        exact ⟨r, hr, h⟩


/-- C5 refuted as stated: with a predicate that accepts an absent response, the dialer built
and the GET request returning no response, `scanSocks5` returns true. -/
theorem scanSocks5_absent_response_accepted :
    (∃ d, deadNet.SOCKS5 "10.0.0.2:1080" = some d ∧ d.isContextDialer = true ∧
      deadNet.Get d permissive.TestTimeout permissive.TestUrl = none) ∧
    permissive.scanSocks5 deadNet "10.0.0.2:1080" = true :=
  ⟨⟨_, rfl, rfl, rfl⟩, rfl⟩

/-- C5 amended: for every configuration `scanSocks5` returns false when the SOCKS5 dialer
cannot be built and when the dialer is not a ContextDialer; when the GET request returns no
response it returns what `TestCallback` answers on the absent response, which is false for
the default predicate. -/
theorem scanSocks5_absent_response (s : Scanner) (net : Net) (addrPort : String) :
    (net.SOCKS5 addrPort = none → s.scanSocks5 net addrPort = false) ∧
    (∀ d, net.SOCKS5 addrPort = some d → d.isContextDialer = false →
      s.scanSocks5 net addrPort = false) ∧
    (∀ d, net.SOCKS5 addrPort = some d → d.isContextDialer = true →
      net.Get d s.TestTimeout s.TestUrl = none →
      s.scanSocks5 net addrPort = s.TestCallback none) ∧
    Default.TestCallback none = false := by
  refine ⟨?_, ?_, ?_, rfl⟩
  · intro h
    simp [Scanner.scanSocks5, h]
  · intro d h hc
    simp [Scanner.scanSocks5, h, hc]
  · intro d h hc hg
    simp [Scanner.scanSocks5, h, hc, hg]

theorem scanSocks5_absent_response_witness :
    Default.scanSocks5 noDialerNet "10.0.0.2:1080" = false ∧
    Default.scanSocks5 plainDialerNet "10.0.0.2:1080" = false ∧
    Default.scanSocks5 deadNet "10.0.0.2:1080" = Default.TestCallback none :=
  ⟨(scanSocks5_absent_response Default noDialerNet "10.0.0.2:1080").1 rfl,
   (scanSocks5_absent_response Default plainDialerNet "10.0.0.2:1080").2.1 _ rfl rfl,
   (scanSocks5_absent_response Default deadNet "10.0.0.2:1080").2.2.1 _ rfl rfl rfl⟩

/-! ## Choice of the strategy -/

/-- C9 refuted as stated: a configuration sets both flags, so two strategies are requested at
once, and packet capture wins by the order of the branches: phase 1 then depends on the
packet-capture detector alone, and the same with `UsePcap` cleared runs raw sockets. -/
theorem strategy_by_precedence :
    bothFlags.UsePcap = true ∧ bothFlags.UseIPRaw = true ∧
    bothFlags.strategy = Strategy.pcap ∧
    bothFlags.phase1 { quietWorld with pcapOk := false } [prefix10] [1080]
      = .error .fatal ∧
    (∃ r, bothFlags.phase1 { quietWorld with ipRawOk := false } [prefix10] [1080] = .ok r) ∧
    ({ bothFlags with UsePcap := false } : Scanner).strategy = Strategy.ipRaw :=
  ⟨rfl, rfl, rfl, rfl, ⟨_, rfl⟩, rfl⟩

/-- C9 amended: for every configuration phase 1 of `ScanAll` runs exactly one branch, fixed
by the two flags in this order: packet capture when `UsePcap` is set (whatever `UseIPRaw`
is), else raw sockets when `UseIPRaw` is set, else the worker pool. -/
theorem strategy_selection (s : Scanner) (w : World) (prefixs : List Prefix)
    (port : List Int) :
    (s.strategy = .pcap ↔ s.UsePcap = true) ∧
    (s.strategy = .ipRaw ↔ s.UsePcap = false ∧ s.UseIPRaw = true) ∧
    (s.strategy = .pooled ↔ s.UsePcap = false ∧ s.UseIPRaw = false) ∧
    (s.UsePcap = true →
      s.phase1 w prefixs port
        = countAll prefixs >>= fun _ => phase1Detector w w.pcapOk prefixs port) ∧
    (s.UsePcap = false → s.UseIPRaw = true →
      s.phase1 w prefixs port
        = countAll prefixs >>= fun _ => phase1Detector w w.ipRawOk prefixs port) ∧
    (s.UsePcap = false → s.UseIPRaw = false →
      s.phase1 w prefixs port
        = countAll prefixs >>= fun n => phase1Pooled w n prefixs port) := by
  unfold Scanner.phase1 Scanner.strategy
  cases h1 : s.UsePcap <;> cases h2 : s.UseIPRaw <;> simp

theorem strategy_selection_witness :
    bothFlags.phase1 quietWorld [prefix10] [1080]
        = (countAll [prefix10] >>= fun _ =>
            phase1Detector quietWorld quietWorld.pcapOk [prefix10] [1080]) ∧
    rawScanner.phase1 quietWorld [prefix10] [1080]
        = (countAll [prefix10] >>= fun _ =>
            phase1Detector quietWorld quietWorld.ipRawOk [prefix10] [1080]) ∧
    Default.phase1 quietWorld [prefix10] [1080]
        = (countAll [prefix10] >>= fun n => phase1Pooled quietWorld n [prefix10] [1080]) :=
  ⟨(strategy_selection bothFlags quietWorld [prefix10] [1080]).2.2.2.1 rfl,
   (strategy_selection rawScanner quietWorld [prefix10] [1080]).2.2.2.2.1 rfl rfl,
   (strategy_selection Default quietWorld [prefix10] [1080]).2.2.2.2.2 rfl rfl⟩

/-! ## The worker pool, the barrier and the collector -/

theorem completion_perm {τ : Type} (order : (n : Nat) → Equiv.Perm (Fin n)) (tasks : List τ) :
    (Pool.completion order tasks).Perm tasks := by
  have h := Equiv.Perm.ofFn_comp_perm (order tasks.length) tasks.get
  rw [List.ofFn_get] at h
  exact h

theorem add_small (n : Int) (h0 : 0 ≤ n) (h1 : n < 2 ^ 31) :
    WaitGroup.Add { counter := 0 } n = .ok { counter := n } := by
  have e : toInt32 (0 + n) = n := by unfold toInt32; omega
  simp only [WaitGroup.Add, e]
  rw [if_neg (by omega)]

theorem done_small (k : Int) (h0 : 0 < k) (h1 : k < 2 ^ 31) :
    WaitGroup.Done { counter := k } = .ok { counter := k - 1 } := by
  have e : toInt32 (k + -1) = k - 1 := by unfold toInt32; omega
  simp only [WaitGroup.Done, WaitGroup.Add, e]
  rw [if_neg (by omega)]

theorem runTask_ok (hit : Bool) (a : AddrPort) (k : Int) (c : List AddrPort) (h0 : 0 < k)
    (h1 : k < 2 ^ 31) :
    runTask hit a { wg := { counter := k }, c := c }
      = .ok { wg := { counter := k - 1 }, c := if hit then c ++ [a] else c } := by
  simp only [runTask]
  rw [done_small k h0 h1, ok_bind]
  rfl

/-- Tasks that run under a barrier holding at least their number and less than `2 ^ 31`: none
panics, each lowers the counter by one, and the collector gains the endpoints of the
tasks that hit, in order of completion. -/
theorem runTasks_ok {τ : Type} (hit : τ → Bool) (ap : τ → AddrPort) (done : List τ)
    (k : Int) (c : List AddrPort) (h0 : (done.length : Int) ≤ k) (h1 : k < 2 ^ 31) :
    done.foldlM (fun g t => runTask (hit t) (ap t) g) ({ wg := { counter := k }, c := c } : Gather)
      = .ok { wg := { counter := k - done.length }, c := c ++ (done.filter hit).map ap } := by
  induction done generalizing k c with
  | nil =>
    simp only [List.foldlM_nil, List.length_nil, List.filter_nil, List.map_nil,
      List.append_nil, Int.ofNat_zero, sub_zero]
    rfl
  | cons t done ih =>
    have hl : ((t :: done).length : Int) = done.length + 1 := by simp
    rw [hl] at h0
    rw [List.foldlM_cons, runTask_ok _ _ k c (by omega) h1, ok_bind,
      ih (k - 1) _ (by omega) (by omega)]
    simp only [Except.ok.injEq, Gather.mk.injEq, WaitGroup.mk.injEq]
    refine ⟨by rw [hl]; omega, ?_⟩
    cases ht : hit t <;> simp [List.filter_cons, ht]

theorem wait_zero : WaitGroup.Wait { counter := 0 } = .ok () := rfl

theorem wrapInt_small (n : Int) (h0 : 0 ≤ n) (h1 : n < 2 ^ 63) : wrapInt n = n := by
  unfold wrapInt; omega

/-! ## Phase 2 -/

/-- The fold of phase 2: as `runTasks_ok`, with the log of the arguments of `scanSocks5`. -/
theorem phase2_fold (s : Scanner) (w : World) (done : List (Nat × AddrPort)) (k : Int)
    (c : List AddrPort) (log : List String) (h0 : (done.length : Int) ≤ k) (h1 : k < 2 ^ 31) :
    done.foldlM (fun (r : Gather × List String) t => do
      let target := w.addrPortString t.2
      let g ← runTask (s.scanSocks5 (w.net t.1) target) t.2 r.1
      pure (g, r.2 ++ [target])) (({ wg := { counter := k }, c := c } : Gather), log)
      = .ok (({ wg := { counter := k - done.length },
                c := c ++ (done.filter (fun t =>
                  s.scanSocks5 (w.net t.1) (w.addrPortString t.2))).map Prod.snd } : Gather),
             log ++ done.map (fun t => w.addrPortString t.2)) := by
  induction done generalizing k c log with
  | nil =>
    simp only [List.foldlM_nil, List.length_nil, List.filter_nil, List.map_nil,
      List.append_nil, Int.ofNat_zero, sub_zero]
    rfl
  | cons t done ih =>
    have hl : ((t :: done).length : Int) = done.length + 1 := by simp
    rw [hl] at h0
    rw [List.foldlM_cons]
    dsimp only
    rw [runTask_ok _ _ k c (by omega) h1, ok_bind]
    erw [ok_bind]
    rw [ih (k - 1) _ _ (by omega) (by omega)]
    simp only [Except.ok.injEq, Prod.mk.injEq, Gather.mk.injEq, WaitGroup.mk.injEq]
    refine ⟨⟨by rw [hl]; omega, ?_⟩, by simp⟩
    cases ht : s.scanSocks5 (w.net t.1) (w.addrPortString t.2) <;>
      simp [List.filter_cons, ht]

/-- Phase 2 on fewer than `2 ^ 31` endpoints: it returns, `scanSocks5` has been called once
for each member of `aliveTCPAddrs` and on nothing else, and the result is, up to order, the
members whose call returned true. -/
theorem phase2_spec (s : Scanner) (w : World) (alive : List AddrPort)
    (h : alive.length < 2 ^ 31) :
    ∃ r, s.phase2 w alive = .ok r ∧
      r.probed.Perm (alive.map w.addrPortString) ∧
      r.validated.Perm ((alive.enum.filter (fun t =>
        s.scanSocks5 (w.net t.1) (w.addrPortString t.2))).map Prod.snd) := by
  have hp := completion_perm w.order2 alive.enum
  have hlen : ((Pool.completion w.order2 alive.enum).length : Int) = alive.length := by
    rw [hp.length_eq, List.enum_length]
  have hw : wrapInt alive.length = alive.length := wrapInt_small _ (by omega) (by omega)
  unfold Scanner.phase2
  rw [hw, add_small _ (by omega) (by omega), ok_bind]
  dsimp only
  rw [phase2_fold s w _ _ _ _ (le_of_eq hlen) (by omega), ok_bind]
  dsimp only
  rw [hlen, sub_self, wait_zero, ok_bind]
  refine ⟨_, rfl, ?_, ?_⟩
  · dsimp only
    rw [List.nil_append]
    have := hp.map (fun t => w.addrPortString t.2)
    refine this.trans ?_
    have e : alive.enum.map (fun t => w.addrPortString t.2)
        = (alive.enum.map Prod.snd).map w.addrPortString := by
      rw [List.map_map]; rfl
    rw [e, List.enum_map_snd]
  · dsimp only
    rw [List.nil_append]
    exact (hp.filter _).map _

theorem phase2_empty (s : Scanner) (w : World) :
    s.phase2 w [] = .ok { probed := [], validated := [] } := rfl

/-! ## Phase 1 -/

theorem foldl_dispatch (port : List Int) (l : List Addr) (acc : List (Addr × Int)) :
    l.foldl (fun st a => dispatch port a st) acc
      = acc ++ l.flatMap (fun a => port.map (fun pt => (a, pt))) := by
  induction l generalizing acc with
  | nil => simp
  | cons a l ih =>
    rw [List.foldl_cons, ih, List.flatMap_cons, dispatch, List.append_assoc]

theorem length_pairs (port : List Int) (l : List Addr) :
    (l.flatMap (fun a => port.map (fun pt => (a, pt)))).length = l.length * port.length := by
  induction l with
  | nil => simp
  | cons a l ih =>
    rw [List.flatMap_cons, List.length_append, ih, List.length_map, List.length_cons]
    ring

theorem count_map_pair (port : List Int) (b : Addr) (pt : Int) :
    (port.map (fun pt => (b, pt))).count (b, pt) = port.count pt := by
  induction port with
  | nil => rfl
  | cons q port ihp =>
    rw [List.map_cons, List.count_cons, List.count_cons, ihp]
    by_cases hq : q = pt
    · simp [hq]
    · have h1 : ((b, q) == (b, pt)) = false := by simpa using hq
      have h2 : (q == pt) = false := by simpa using hq
      rw [h1, h2]

theorem count_pairs (port : List Int) (l : List Addr) (a : Addr) (pt : Int) :
    (l.flatMap (fun a => port.map (fun pt => (a, pt)))).count (a, pt)
      = l.count a * port.count pt := by
  induction l with
  | nil => simp
  | cons b l ih =>
    rw [List.flatMap_cons, List.count_append, ih, List.count_cons]
    by_cases hb : b = a
    · subst hb
      have e := count_map_pair port b pt
      simp only [e, beq_self_eq_true, if_true]
      ring
    · have e : (port.map (fun pt => (b, pt))).count (a, pt) = 0 := by
        apply List.count_eq_zero_of_not_mem
        intro hm
        obtain ⟨x, _, hx⟩ := List.mem_map.mp hm
        exact hb (Prod.mk.inj hx).1
      have hb2 : (b == a) = false := by simpa using hb
      simp only [e, hb2, Bool.false_eq_true, if_false, Nat.add_zero, Nat.zero_add]

/-- The dispatch log of the enumeration on valid IPv4 prefixes: every enumerated address
paired with every entry of `port`, addresses in order of enumeration. -/
theorem dispatched_eq (ps : List Prefix) (h : ∀ p ∈ ps, p.ValidV4) (port : List Int) :
    ipGenerator ps (dispatch port) []
      = .ok ((ps.flatMap prefixBlock).flatMap (fun a => port.map (fun pt => (a, pt)))) := by
  rw [ipGenerator_eq ps h, foldl_dispatch, List.nil_append]

theorem countAll_modEq (ps : List Prefix) (h : ∀ p ∈ ps, p.ValidV4) (init : Int) :
    ∃ n, ps.foldlM (fun all p => do
        let c ← shl1 (32 - p.Bits)
        pure (wrapInt (all + c))) init = (Except.ok n : Except Abort Int) ∧
      n % 2 ^ 64
        = (init + ((ps.map (fun p => 2 ^ (32 - p.Bits).toNat)).sum : Nat)) % 2 ^ 64 := by
  induction ps generalizing init with
  | nil => exact ⟨init, rfl, by simp⟩
  | cons p ps ih =>
    have hp := h p (List.mem_cons_self _ _)
    have hk : (32 - p.Bits).toNat = 33 - p.bitsPlusOne := by
      have := hp.2.2.1
      unfold Prefix.Bits; omega
    obtain ⟨n, hn, hm⟩ := ih (fun q hq => h q (List.mem_cons_of_mem _ hq))
      (wrapInt (init + 2 ^ (33 - p.bitsPlusOne)))
    refine ⟨n, ?_, ?_⟩
    · rw [List.foldlM_cons, shl1_validV4 p hp, ok_bind]
      erw [ok_bind]
      exact hn
    · rw [hm, List.map_cons, List.sum_cons, hk]
      have hwm : ∀ x : Int, wrapInt x % 2 ^ 64 = x % 2 ^ 64 := by
        intro x; unfold wrapInt; omega
      push_cast
      generalize (((ps.map (fun p => 2 ^ (32 - p.Bits).toNat)).sum : Nat) : Int) = S
      have := hwm (init + 2 ^ (33 - p.bitsPlusOne))
      generalize wrapInt (init + 2 ^ (33 - p.bitsPlusOne)) = W at this ⊢
      generalize (2 : Int) ^ (33 - p.bitsPlusOne) = P at this ⊢
      omega

theorem barrier_count (n : Int) (S len : Nat) (hm : n % 2 ^ 64 = (S : Int) % 2 ^ 64)
    (hb : S * len < 2 ^ 31) : wrapInt (n * len) = ((S * len : Nat) : Int) := by
  have h1 : (n * len) % 2 ^ 64 = ((S : Int) * len) % 2 ^ 64 :=
    Int.ModEq.mul_right _ hm
  have h2 : ((S * len : Nat) : Int) = (S : Int) * len := by push_cast; rfl
  have h3 : ((S * len : Nat) : Int) < 2 ^ 31 := by exact_mod_cast hb
  rw [h2] at h3 ⊢
  have h4 : (0 : Int) ≤ (S : Int) * len := by positivity
  generalize n * (len : Int) = y at h1 ⊢
  generalize (S : Int) * (len : Int) = T at h1 h3 h4 ⊢
  unfold wrapInt
  omega

theorem phase1Detector_spec (w : World) (ps : List Prefix) (h : ∀ p ∈ ps, p.ValidV4)
    (port : List Int) :
    ∃ r, phase1Detector w true ps port = .ok r ∧
      r.dispatched = (ps.flatMap prefixBlock).flatMap (fun a => port.map (fun pt => (a, pt))) ∧
      r.alive = (w.aliveStream (r.dispatched.map (fun d => AddrPortFrom d.1 (toUint16 d.2)))).take
        (w.forwarded
          (w.aliveStream (r.dispatched.map (fun d => AddrPortFrom d.1 (toUint16 d.2)))).length) := by
  unfold phase1Detector
  rw [dispatched_eq ps h port]
  exact ⟨_, rfl, rfl, rfl⟩

theorem phase1Detector_fatal (w : World) (ps : List Prefix) (port : List Int) :
    phase1Detector w false ps port = .error .fatal := rfl

/-- A run of the pooled branch that returns has dispatched the pairs of the enumeration. -/
theorem phase1Pooled_returns (w : World) (ps : List Prefix) (h : ∀ p ∈ ps, p.ValidV4)
    (port : List Int) (n : Int) (r : Phase1) (hr : phase1Pooled w n ps port = .ok r) :
    r.dispatched = (ps.flatMap prefixBlock).flatMap (fun a => port.map (fun pt => (a, pt))) := by
  unfold phase1Pooled at hr
  cases hA : WaitGroup.Add { counter := 0 } (wrapInt (n * port.length)) with
  | error e =>
    rw [hA, error_bind] at hr
    exact absurd hr (by simp)
  | ok wg =>
    rw [hA, ok_bind, dispatched_eq ps h port, ok_bind] at hr
    dsimp only at hr
    generalize (Pool.completion w.order1
      ((ps.flatMap prefixBlock).flatMap (fun a => port.map (fun pt => (a, pt)))).enum).foldlM
        (fun g t => runTask (w.CommonScan t.1 (w.addrString t.2.1 ++ ":" ++ w.sprint t.2.2))
          (AddrPortFrom t.2.1 (toUint16 t.2.2)) g) ({ wg := wg, c := [] } : Gather) = F at hr
    cases F with
    | error e =>
      rw [error_bind] at hr
      exact absurd hr (by simp)
    | ok g =>
      rw [ok_bind] at hr
      cases hW : g.wg.Wait with
      | error e =>
        rw [hW, error_bind] at hr
        exact absurd hr (by simp)
      | ok u =>
        rw [hW, ok_bind] at hr
        have := Except.ok.inj hr
        rw [← this]

/-- The pooled branch with fewer than `2 ^ 31` tasks: the barrier is set to the number of tasks,
no `Done` makes it negative, it is back at zero when the last task has finished, and
`aliveTCPAddrs` holds, up to order, the endpoints whose `CommonScan` succeeded. -/
theorem phase1Pooled_spec (w : World) (ps : List Prefix) (h : ∀ p ∈ ps, p.ValidV4)
    (port : List Int) (n : Int)
    (hn : n % 2 ^ 64 = (((ps.map (fun p => 2 ^ (32 - p.Bits).toNat)).sum : Nat) : Int) % 2 ^ 64)
    (hb : (ps.map (fun p => 2 ^ (32 - p.Bits).toNat)).sum * port.length < 2 ^ 31) :
    ∃ r, phase1Pooled w n ps port = .ok r ∧
      r.dispatched = (ps.flatMap prefixBlock).flatMap (fun a => port.map (fun pt => (a, pt))) ∧
      r.alive.Perm ((r.dispatched.enum.filter (fun t =>
        w.CommonScan t.1 (w.addrString t.2.1 ++ ":" ++ w.sprint t.2.2))).map
          (fun t => AddrPortFrom t.2.1 (toUint16 t.2.2))) := by
  have hp := completion_perm w.order1
    ((ps.flatMap prefixBlock).flatMap (fun a => port.map (fun pt => (a, pt)))).enum
  have hlen : ((Pool.completion w.order1
      ((ps.flatMap prefixBlock).flatMap (fun a => port.map (fun pt => (a, pt)))).enum).length : Int)
      = (((ps.map (fun p => 2 ^ (32 - p.Bits).toNat)).sum * port.length : Nat) : Int) := by
    rw [hp.length_eq, List.enum_length, length_pairs, length_flatMap_prefixBlock ps h]
  have hb2 : ((((ps.map (fun p => 2 ^ (32 - p.Bits).toNat)).sum * port.length : Nat)) : Int)
      < 2 ^ 31 := by exact_mod_cast hb
  unfold phase1Pooled
  rw [barrier_count n _ _ hn hb, add_small _ (by positivity) hb2, ok_bind,
    dispatched_eq ps h port, ok_bind]
  dsimp only
  rw [runTasks_ok _ _ _ _ _ (le_of_eq hlen) hb2, ok_bind]
  dsimp only
  rw [hlen, sub_self, wait_zero, ok_bind]
  refine ⟨_, rfl, rfl, ?_⟩
  dsimp only
  rw [List.nil_append]
  exact (hp.filter _).map _

/-- The pooled branch of phase 1 with fewer than `2 ^ 31` tasks returns, and `aliveTCPAddrs`
holds, up to order, the endpoints of the tasks whose `CommonScan` succeeded. -/
theorem phase1_pooled_ok (s : Scanner) (w : World) (ps : List Prefix) (port : List Int)
    (hv : ∀ p ∈ ps, p.ValidV4) (h1 : s.UsePcap = false) (h2 : s.UseIPRaw = false)
    (hb : (ps.map (fun p => 2 ^ (32 - p.Bits).toNat)).sum * port.length < 2 ^ 31) :
    ∃ r, s.phase1 w ps port = .ok r ∧
      r.alive.Perm ((r.dispatched.enum.filter (fun t =>
        w.CommonScan t.1 (w.addrString t.2.1 ++ ":" ++ w.sprint t.2.2))).map
          (fun t => AddrPortFrom t.2.1 (toUint16 t.2.2))) := by
  obtain ⟨n, hn, hm⟩ := countAll_modEq ps hv 0
  rw [zero_add] at hm
  have hcount : countAll ps = .ok n := hn
  obtain ⟨r, e1, _, e3⟩ := phase1Pooled_spec w ps hv port n hm hb
  refine ⟨r, ?_, e3⟩
  unfold Scanner.phase1
  rw [hcount, ok_bind, Scanner.strategy, if_neg (by simp [h1]), if_neg (by simp [h2])]
  exact e1

/-- C7 amended: for valid IPv4 prefixes and every port list the enumeration of phase 1
dispatches, under each of the three strategies, exactly the pairs of the enumerated address
sequence with the port list, in order: their number is the sum of `2 ^ (32 - bits)` times
`len(port)` and a pair occurs once for each prefix containing the address and each
occurrence of the port in the list. Under packet capture and under raw socket phase 1
returns with these pairs dispatched when the detector was constructed and is aborted by
`log.Fatal`, before any probe, when it was not; in every branch a phase 1 that returns has
dispatched exactly these pairs. -/
theorem phase1_dispatch (s : Scanner) (w : World) (ps : List Prefix) (port : List Int)
    (hv : ∀ p ∈ ps, p.ValidV4) :
    ∃ addrs, yieldSeq ps = .ok addrs ∧
      ipGenerator ps (dispatch port) []
        = .ok (addrs.flatMap (fun a => port.map (fun pt => (a, pt)))) ∧
      (addrs.flatMap (fun a => port.map (fun pt => (a, pt)))).length
        = (ps.map (fun p => 2 ^ (32 - p.Bits).toNat)).sum * port.length ∧
      (∀ a : Addr, a.WF → ∀ pt : Int,
        (addrs.flatMap (fun a => port.map (fun pt => (a, pt)))).count (a, pt)
          = (ps.filter (fun p => p.Contains a)).length * port.count pt) ∧
      (s.UsePcap = true → w.pcapOk = true →
        ∃ r, s.phase1 w ps port = .ok r ∧
          r.dispatched = addrs.flatMap (fun a => port.map (fun pt => (a, pt)))) ∧
      (s.UsePcap = true → w.pcapOk = false → s.phase1 w ps port = .error .fatal) ∧
      (s.UsePcap = false → s.UseIPRaw = true → w.ipRawOk = true →
        ∃ r, s.phase1 w ps port = .ok r ∧
          r.dispatched = addrs.flatMap (fun a => port.map (fun pt => (a, pt)))) ∧
      (s.UsePcap = false → s.UseIPRaw = true → w.ipRawOk = false →
        s.phase1 w ps port = .error .fatal) ∧
      (∀ r, s.phase1 w ps port = .ok r →
        r.dispatched = addrs.flatMap (fun a => port.map (fun pt => (a, pt)))) := by
  obtain ⟨n, hn, _⟩ := countAll_modEq ps hv 0
  have hcount : countAll ps = .ok n := hn
  have hrun : s.phase1 w ps port
      = (match s.strategy with
        | .pcap => phase1Detector w w.pcapOk ps port
        | .ipRaw => phase1Detector w w.ipRawOk ps port
        | .pooled => phase1Pooled w n ps port) := by
    unfold Scanner.phase1
    rw [hcount, ok_bind]
  refine ⟨ps.flatMap prefixBlock, yieldSeq_eq ps hv, dispatched_eq ps hv port, ?_, ?_,
    ?_, ?_, ?_, ?_, ?_⟩
  · rw [length_pairs, length_flatMap_prefixBlock ps hv]
  · intro a ha pt
    rw [count_pairs, count_flatMap_prefixBlock ps hv a ha]
  · intro h1 hok
    obtain ⟨r, e1, e2, _⟩ := phase1Detector_spec w ps hv port
    refine ⟨r, ?_, e2⟩
    rw [hrun, Scanner.strategy, if_pos h1, hok]
    exact e1
  · intro h1 hok
    rw [hrun, Scanner.strategy, if_pos h1, hok]
    rfl
  · intro h1 h2 hok
    obtain ⟨r, e1, e2, _⟩ := phase1Detector_spec w ps hv port
    refine ⟨r, ?_, e2⟩
    rw [hrun, Scanner.strategy, if_neg (by simp [h1]), if_pos h2, hok]
    exact e1
  · intro h1 h2 hok
    rw [hrun, Scanner.strategy, if_neg (by simp [h1]), if_pos h2, hok]
    rfl
  · intro r hr
    rw [hrun] at hr
    cases hs : s.strategy with
    | pcap =>
      rw [hs] at hr
      dsimp only at hr
      cases hok : w.pcapOk with
      | false =>
        rw [hok, phase1Detector_fatal] at hr
        exact absurd hr (by simp)
      | true =>
        obtain ⟨r1, e1, e2, _⟩ := phase1Detector_spec w ps hv port
        rw [hok, e1] at hr
        rw [← Except.ok.inj hr]
        exact e2
    | ipRaw =>
      rw [hs] at hr
      dsimp only at hr
      cases hok : w.ipRawOk with
      | false =>
        rw [hok, phase1Detector_fatal] at hr
        exact absurd hr (by simp)
      | true =>
        obtain ⟨r1, e1, e2, _⟩ := phase1Detector_spec w ps hv port
        rw [hok, e1] at hr
        rw [← Except.ok.inj hr]
        exact e2
    | pooled =>
      rw [hs] at hr
      exact phase1Pooled_returns w ps hv port n r hr

theorem phase1_dispatch_witness :
    (∀ p ∈ [prefix10], p.ValidV4) ∧
    (∃ addrs, yieldSeq [prefix10] = .ok addrs ∧
      ∃ r, pcapScanner.phase1 quietWorld [prefix10] [1080] = .ok r ∧
        r.dispatched = addrs.flatMap (fun a => [(1080 : Int)].map (fun pt => (a, pt)))) ∧
    pcapScanner.phase1 { quietWorld with pcapOk := false } [prefix10] [1080] = .error .fatal ∧
    (∃ addrs, yieldSeq [prefix10] = .ok addrs ∧
      ∃ r, rawScanner.phase1 quietWorld [prefix10] [1080] = .ok r ∧
        r.dispatched = addrs.flatMap (fun a => [(1080 : Int)].map (fun pt => (a, pt)))) ∧
    rawScanner.phase1 { quietWorld with ipRawOk := false } [prefix10] [1080] = .error .fatal ∧
    (∃ addrs, yieldSeq [prefix10] = .ok addrs ∧
      ∃ r, Default.phase1 quietWorld [prefix10] [1080] = .ok r ∧
        r.dispatched = addrs.flatMap (fun a => [(1080 : Int)].map (fun pt => (a, pt)))) := by
  obtain ⟨a1, y1, _, _, _, p1, _, _, _, _⟩ :=
    phase1_dispatch pcapScanner quietWorld [prefix10] [1080] (by decide)
  obtain ⟨_, _, _, _, _, _, p2, _, _, _⟩ :=
    phase1_dispatch pcapScanner { quietWorld with pcapOk := false } [prefix10] [1080]
      (by decide)
  obtain ⟨a3, y3, _, _, _, _, _, p3, _, _⟩ :=
    phase1_dispatch rawScanner quietWorld [prefix10] [1080] (by decide)
  obtain ⟨_, _, _, _, _, _, _, _, p4, _⟩ :=
    phase1_dispatch rawScanner { quietWorld with ipRawOk := false } [prefix10] [1080]
      (by decide)
  obtain ⟨a5, y5, _, _, _, _, _, _, _, p5⟩ :=
    phase1_dispatch Default quietWorld [prefix10] [1080] (by decide)
  obtain ⟨r5, h5, _⟩ :=
    phase1_pooled_ok Default quietWorld [prefix10] [1080] (by decide) rfl rfl (by decide)
  exact ⟨by decide, ⟨a1, y1, p1 rfl rfl⟩, p2 rfl rfl, ⟨a3, y3, p3 rfl rfl rfl⟩,
    p4 rfl rfl rfl, ⟨a5, y5, r5, h5, p5 r5 h5⟩⟩

/-- C7 refuted as stated: the enumerator yields the four addresses of 10.0.0.0/30 and the
port list has one entry, yet under packet capture and under raw socket, with a detector
that cannot be constructed, phase 1 is aborted by `log.Fatal` and no probe is dispatched. -/
theorem phase1_without_dispatch :
    (∃ addrs, yieldSeq [prefix10] = .ok addrs ∧ addrs.length = 4) ∧
    pcapScanner.phase1 { quietWorld with pcapOk := false } [prefix10] [1080]
      = .error .fatal ∧
    rawScanner.phase1 { quietWorld with ipRawOk := false } [prefix10] [1080]
      = .error .fatal :=
  ⟨⟨_, rfl, rfl⟩, rfl, rfl⟩

/-! ## The completion barrier beyond its range -/

/-- C10, the code at a failing input: in pooled mode on 0.0.0.0/1 with the port list [1080]
the enumeration would submit `2 ^ 31` tasks and `addrCount * len(port)` is `2 ^ 31`, but
`wg.Add` of that count panics with a negative counter, so phase 1 stops before any task;
and a count of `2 ^ 32` (0.0.0.0/0 on one port) leaves the counter at 0, where the first
`Done` panics. -/
theorem barrier_overflow :
    (∃ addrs, yieldSeq [halfSpace] = .ok addrs ∧
      addrs.length * [(1080 : Int)].length = 2 ^ 31) ∧
    countAll [halfSpace] = .ok (2 ^ 31) ∧
    wrapInt (2 ^ 31 * ([(1080 : Int)].length : Int)) = 2 ^ 31 ∧
    WaitGroup.Add { counter := 0 } (2 ^ 31) = .error .panic ∧
    (∀ w : World, Default.phase1 w [halfSpace] [1080] = .error .panic) ∧
    WaitGroup.Add { counter := 0 } (2 ^ 32) = .ok { counter := 0 } ∧
    WaitGroup.Done { counter := 0 } = .error .panic := by
  refine ⟨⟨[halfSpace].flatMap prefixBlock, yieldSeq_eq [halfSpace] (by decide), ?_⟩,
    rfl, rfl, rfl, fun _ => rfl, rfl, rfl⟩
  rw [length_flatMap_prefixBlock [halfSpace] (by decide)]
  rfl

theorem phase2_panics (s : Scanner) (w : World) (alive : List AddrPort)
    (h : alive.length = 2 ^ 31) : s.phase2 w alive = .error .panic := by
  unfold Scanner.phase2
  rw [h]
  rfl

/-- C6, the code at a failing input: on an AliveSet of `2 ^ 31` endpoints phase 2 panics in
`wg.Add(len(aliveTCPAddrs))`, whatever the configuration and the network: no member is
validated and there is no result. Such an AliveSet comes out of phase 1 of a packet-capture
scan of 0.0.0.0/1 on port 1080 in which every probed endpoint is reported alive, and
`ScanAll` then panics. -/
theorem phase2_barrier_overflow :
    (∀ (s : Scanner) (w : World),
      s.phase2 w (List.replicate (2 ^ 31) endpoint2) = .error .panic) ∧
    (∃ r, pcapScanner.phase1 everyoneAlive [halfSpace] [1080] = .ok r ∧
      r.alive.length = 2 ^ 31) ∧
    pcapScanner.ScanAll everyoneAlive [halfSpace] [1080] = .error .panic := by
  have hv : ∀ p ∈ [halfSpace], p.ValidV4 := by decide
  obtain ⟨r, h1, h2, h3⟩ := phase1Detector_spec everyoneAlive [halfSpace] hv [1080]
  have hp : pcapScanner.phase1 everyoneAlive [halfSpace] [1080] = .ok r := by
    have hc : countAll [halfSpace] = .ok (2 ^ 31) := rfl
    unfold Scanner.phase1
    rw [hc, ok_bind]
    exact h1
  have hl : r.alive.length = 2 ^ 31 := by
    rw [h3]
    show ((r.dispatched.map (fun d => AddrPortFrom d.1 (toUint16 d.2))).take
      (r.dispatched.map (fun d => AddrPortFrom d.1 (toUint16 d.2))).length).length = 2 ^ 31
    rw [List.take_length, List.length_map, h2, length_pairs,
      length_flatMap_prefixBlock [halfSpace] hv]
    rfl
  refine ⟨fun s w => phase2_panics s w _ (List.length_replicate _ _), ⟨r, hp, hl⟩, ?_⟩
  unfold Scanner.ScanAll
  rw [hp, ok_bind, phase2_panics _ _ _ hl]
  rfl

/-! ## Results reported alive and the collector -/

/-- In the pooled branch with fewer than `2 ^ 31` tasks, for every completion order, the
endpoint of every task whose `CommonScan` succeeded is in `aliveTCPAddrs`. -/
theorem pooled_no_loss (s : Scanner) (w : World) (ps : List Prefix) (port : List Int)
    (hv : ∀ p ∈ ps, p.ValidV4) (h1 : s.UsePcap = false) (h2 : s.UseIPRaw = false)
    (hb : (ps.map (fun p => 2 ^ (32 - p.Bits).toNat)).sum * port.length < 2 ^ 31) :
    ∃ r, s.phase1 w ps port = .ok r ∧
      ∀ t ∈ r.dispatched.enum,
        w.CommonScan t.1 (w.addrString t.2.1 ++ ":" ++ w.sprint t.2.2) = true →
        AddrPortFrom t.2.1 (toUint16 t.2.2) ∈ r.alive := by
  obtain ⟨r, hr, hp⟩ := phase1_pooled_ok s w ps port hv h1 h2 hb
  refine ⟨r, hr, ?_⟩
  intro t ht hit
  rw [hp.mem_iff, List.mem_map]
  exact ⟨t, List.mem_filter.mpr ⟨ht, hit⟩, rfl⟩

/-- In phase 2 on fewer than `2 ^ 31` endpoints, for every completion order, every endpoint
whose `scanSocks5` returned true is in the final result. -/
theorem phase2_no_loss (s : Scanner) (w : World) (alive : List AddrPort)
    (h : alive.length < 2 ^ 31) :
    ∃ r, s.phase2 w alive = .ok r ∧
      ∀ t ∈ alive.enum, s.scanSocks5 (w.net t.1) (w.addrPortString t.2) = true →
        t.2 ∈ r.validated := by
  obtain ⟨r, hr, _, hp⟩ := phase2_spec s w alive h
  refine ⟨r, hr, ?_⟩
  intro t ht hit
  rw [hp.mem_iff, List.mem_map]
  exact ⟨t, List.mem_filter.mpr ⟨ht, hit⟩, rfl⟩

/-- C8, the code at a failing input: a packet-capture (or raw-socket) scan of 10.0.0.0/30 on
port 1080 in which the detector emits 10.0.0.2:1080 on `Alive` before `Wait()` returns, run
under a schedule in which `ScanAll` reaches `c.Return()` before the goroutine reading
`Alive` has written to the collector: the endpoint is reported alive and is not in the
AliveSet, and `ScanAll` returns nothing, where the same scan with the write in time returns
the proxy. The pooled branch and phase 2, where each task writes before its `Done`, lose
nothing below `2 ^ 31` tasks. -/
theorem alive_endpoint_lost :
    (∃ r, pcapScanner.phase1 lateForwarder [prefix10] [1080] = .ok r ∧
      endpoint2 ∈ lateForwarder.aliveStream
        (r.dispatched.map (fun d => AddrPortFrom d.1 (toUint16 d.2))) ∧
      endpoint2 ∉ r.alive) ∧
    (∃ r, rawScanner.phase1 lateForwarder [prefix10] [1080] = .ok r ∧
      endpoint2 ∈ lateForwarder.aliveStream
        (r.dispatched.map (fun d => AddrPortFrom d.1 (toUint16 d.2))) ∧
      endpoint2 ∉ r.alive) ∧
    pcapScanner.ScanAll lateForwarder [prefix10] [1080] = .ok [] ∧
    pcapScanner.ScanAll quietWorld [prefix10] [1080] = .ok [endpoint2] ∧
    Default.ScanAll quietWorld [prefix10] [1080] = .ok [endpoint2] ∧
    (∀ (s : Scanner) (w : World) (ps : List Prefix) (port : List Int),
      (∀ p ∈ ps, p.ValidV4) → s.UsePcap = false → s.UseIPRaw = false →
      (ps.map (fun p => 2 ^ (32 - p.Bits).toNat)).sum * port.length < 2 ^ 31 →
      ∃ r, s.phase1 w ps port = .ok r ∧
        ∀ t ∈ r.dispatched.enum,
          w.CommonScan t.1 (w.addrString t.2.1 ++ ":" ++ w.sprint t.2.2) = true →
          AddrPortFrom t.2.1 (toUint16 t.2.2) ∈ r.alive) ∧
    (∀ (s : Scanner) (w : World) (alive : List AddrPort), alive.length < 2 ^ 31 →
      ∃ r, s.phase2 w alive = .ok r ∧
        ∀ t ∈ alive.enum, s.scanSocks5 (w.net t.1) (w.addrPortString t.2) = true →
          t.2 ∈ r.validated) := by
  refine ⟨⟨_, rfl, ?_, ?_⟩, ⟨_, rfl, ?_, ?_⟩, ?_, ?_, ?_, pooled_no_loss, phase2_no_loss⟩
  · decide
  · decide
  · decide
  · decide
  · rfl
  · have h1 : pcapScanner.phase1 quietWorld [prefix10] [1080]
        = .ok { dispatched := [(AddrFrom4 0x0a000000, 1080), (AddrFrom4 0x0a000001, 1080),
                  (AddrFrom4 0x0a000002, 1080), (AddrFrom4 0x0a000003, 1080)],
                alive := [endpoint2] } := by rfl
    have h2 : pcapScanner.phase2 quietWorld [endpoint2]
        = .ok { probed := ["10.0.0.2:1080"], validated := [endpoint2] } := by rfl
    unfold Scanner.ScanAll
    rw [h1, ok_bind, h2]
    rfl
  · rfl

end ProxyScan
